import Mathlib

/-!
Shallow embedding of the contact-resolution core of
`streamlit-company-scraper` (`src/company_scraper.py`).

Python strings are modelled as `List Char` (Lean `String` is `mk (data :
List Char)`, so the two views coincide); the Python `str` methods used by
the scraper (`lower`, `strip`, `replace`, `split`, `in`, `endswith`) are
given direct list-level models below.  Where a method is redefined twice
in the Python class body, the later definition wins; the embeddings below
follow the effective (later) definitions.
-/

namespace CompanyScraper

/-- Python `needle in haystack` (substring containment). -/
def pyContains (hay needle : List Char) : Bool :=
  decide (needle <:+: hay)

/-- Python `s.endswith(suffix)`. -/
def pyEndsWith (s suffix : List Char) : Bool :=
  decide (suffix <:+ s)

/-- Python `s.lower()` (the scraper only ever lowercases ASCII data). -/
def pyLower (s : List Char) : List Char :=
  s.map Char.toLower

/-- Python `s.strip()`: remove leading and trailing whitespace. -/
def pyStrip (s : List Char) : List Char :=
  ((s.dropWhile Char.isWhitespace).reverse.dropWhile Char.isWhitespace).reverse

/-- Python `re.sub(r'[^\d]', '', s)`: the digit characters of `s`, in order. -/
def digitsOnly (s : List Char) : List Char :=
  s.filter Char.isDigit

/-- The ten digit characters, Python's `'0123456789'` (also the `ascending`
literal of `validate_phone_number`). -/
def ascendingDigits : List Char :=
  "0123456789".data

/-- The `descending` literal `'9876543210'` of `validate_phone_number`. -/
def descendingDigits : List Char :=
  "9876543210".data

/-- Model of `validate_phone_number` (src/company_scraper.py lines 1152-1179), on the
character list of the phone string.  Mirrors, in order: the leading-`+`
check, the 10-15 digit-count bounds on `re.sub(r'[^\d]', '', phone[1:])`,
the `digit * 7 in digits_only` repeated-digit check, and the
`ascending[i:i+8]` / `descending[i:i+8]` sequential checks for
`i in range(3)`. -/
def validatePhoneL (phone : List Char) : Bool :=
  match phone with
  | '+' :: rest =>
    let digits_only := digitsOnly rest
    if digits_only.length < 10 ∨ 15 < digits_only.length then false
    else if ascendingDigits.any (fun d => decide (List.replicate 7 d <:+: digits_only)) then false
    else if (List.range 3).any (fun i => decide ((ascendingDigits.drop i).take 8 <:+: digits_only)) then false
    else if (List.range 3).any (fun i => decide ((descendingDigits.drop i).take 8 <:+: digits_only)) then false
    else true
  | _ => false

/-- The function `validate_phone_number` on Python strings. -/
def validate_phone_number (phone : String) : Bool :=
  validatePhoneL phone.data

/-- The separator class `[\s\-()]` stripped by `clean_phone_number`. -/
def isPhoneSeparator (c : Char) : Bool :=
  c.isWhitespace || c == '-' || c == '(' || c == ')'

/-- Model of `clean_phone_number` (lines 1758-1779) on character lists: empty or
non-`+`-initial input yields `""`; otherwise separators are removed, the
digit count (excluding the `+`) must be 10-15, and the cleaned number must
pass `validate_phone_number`. -/
def cleanPhoneL (phone : List Char) : List Char :=
  match phone with
  | '+' :: rest =>
    let cleaned := '+' :: rest.filter (fun c => !isPhoneSeparator c)
    let digits_only := digitsOnly (rest.filter (fun c => !isPhoneSeparator c))
    if digits_only.length < 10 ∨ 15 < digits_only.length then []
    else if validatePhoneL cleaned then cleaned
    else []
  | _ => []

/-- The function `clean_phone_number` on Python strings. -/
def clean_phone_number (phone : String) : String :=
  String.mk (cleanPhoneL phone.data)

/-- Spec §4.1: a contiguous run of at least `k` identical characters occurs
in `l`. -/
def HasIdenticalRun (l : List Char) (k : Nat) : Prop :=
  ∃ (d : Char) (run : List Char), run <:+: l ∧ k ≤ run.length ∧ ∀ c ∈ run, c = d

/-- Spec §4.1: a contiguous run of `k` characters each one codepoint above
its predecessor (an ascending consecutive digit run such as `01234567`). -/
def HasAscendingRun (l : List Char) (k : Nat) : Prop :=
  ∃ run : List Char, run <:+: l ∧ run.length = k ∧
    List.Chain' (fun a b => b.toNat = a.toNat + 1) run

/-- Spec §4.1: a descending consecutive run of `k` characters (such as
`98765432`). -/
def HasDescendingRun (l : List Char) (k : Nat) : Prop :=
  ∃ run : List Char, run <:+: l ∧ run.length = k ∧
    List.Chain' (fun a b => a.toNat = b.toNat + 1) run

/-- The spec's statement of the phone-validation rule (§4.1 phone
extraction): textual form begins with `+`; 10-15 digits after stripping
separators; no run of 7 or more identical digits; no 8-digit ascending or
descending consecutive run. -/
def SpecPhoneValid (phone : String) : Prop :=
  ∃ rest, phone.data = '+' :: rest ∧
    10 ≤ (digitsOnly rest).length ∧ (digitsOnly rest).length ≤ 15 ∧
    ¬ HasIdenticalRun (digitsOnly rest) 7 ∧
    ¬ HasAscendingRun (digitsOnly rest) 8 ∧
    ¬ HasDescendingRun (digitsOnly rest) 8

/-- The shape of the regular expressions used by the scraper: bounded or
unbounded repetitions of a character class, literals, alternation and
sequencing.  `cls p lo hi` is `[class]{lo,hi}` (`hi = none` for `{lo,}`;
`*` is `{0,}`, `+` is `{1,}`). -/
inductive Rx where
  | cls (p : Char → Bool) (lo : Nat) (hi : Option Nat)
  | lit (s : List Char)
  | seq (a b : Rx)
  | alt (a b : Rx)

/-- The lengths of the prefixes of `l` matched by `r`, in Python `re`
backtracking priority order (greedy: longest repetition first,
alternatives left to right). -/
def Rx.matchLens : Rx → List Char → List Nat
  | .cls p lo hi, l =>
    let m := (l.takeWhile p).length
    let top := match hi with
      | none => m
      | some h => min m h
    if top < lo then []
    else (List.range (top - lo + 1)).map (fun k => top - k)
  | .lit s, l => if s <+: l then [s.length] else []
  | .seq a b, l => (a.matchLens l).flatMap (fun n => (b.matchLens (l.drop n)).map (n + ·))
  | .alt a b, l => a.matchLens l ++ b.matchLens l

/-- Python `re.match(r, s) is not None`: does `r` match at position 0? -/
def reMatches (r : Rx) (l : List Char) : Bool :=
  !(r.matchLens l).isEmpty

/-- Python `re.findall(r, ·)`: scan left to right, at each position take the
backtracking-preferred match, emit it and continue after it (none of the
scraper's patterns can match the empty string, so the zero-length-match
branch mirrors skipping one character).  The fuel argument only bounds the
recursion depth; each step consumes at least one character, so fuel equal
to the input length (as supplied by `reFindall`) never runs out. -/
def reFindAux (r : Rx) : Nat → List Char → List (List Char)
  | _, [] => []
  | 0, _ :: _ => []
  | fuel + 1, c :: cs =>
    match (r.matchLens (c :: cs)).head? with
    | some (n + 1) => (c :: cs).take (n + 1) :: reFindAux r fuel (cs.drop n)
    | _ => reFindAux r fuel cs

/-- Python `re.findall(r, l)`. -/
def reFindall (r : Rx) (l : List Char) : List (List Char) :=
  reFindAux r l.length l

/-- Python `re.sub(r, repl, ·)`: replace each non-overlapping leftmost
match of `r` by `repl` (same fuel discipline as `reFindAux`). -/
def reSubAux (r : Rx) (repl : List Char) : Nat → List Char → List Char
  | _, [] => []
  | 0, rest => rest
  | fuel + 1, c :: cs =>
    match (r.matchLens (c :: cs)).head? with
    | some (n + 1) => repl ++ reSubAux r repl fuel (cs.drop n)
    | _ => c :: reSubAux r repl fuel cs

/-- Python `re.sub(r, repl, l)`. -/
def reSub (r : Rx) (repl : List Char) (l : List Char) : List Char :=
  reSubAux r repl l.length l

/-- The local-part class `[a-zA-Z0-9._%+-]` of `EMAIL_PATTERN`. -/
def isLocalChar (c : Char) : Bool :=
  c.isAlpha || c.isDigit || c == '.' || c == '_' || c == '%' || c == '+' || c == '-'

/-- The domain class `[a-zA-Z0-9.-]` of `EMAIL_PATTERN`. -/
def isDomainChar (c : Char) : Bool :=
  c.isAlpha || c.isDigit || c == '.' || c == '-'

/-- The pattern `EMAIL_PATTERN = r'[a-zA-Z0-9._%+-]+@[a-zA-Z0-9.-]+\.[a-zA-Z]{2,}'`
(line 119, the effective definition). -/
def emailRx : Rx :=
  .seq (.cls isLocalChar 1 none)
    (.seq (.lit ['@'])
      (.seq (.cls isDomainChar 1 none)
        (.seq (.lit ['.']) (.cls Char.isAlpha 2 none))))

/-- Whitespace repetition `\s*`. -/
def wsStar : Rx := .cls Char.isWhitespace 0 none

/-- Whitespace repetition `\s+`. -/
def wsPlus : Rx := .cls Char.isWhitespace 1 none

/-- The `@`-obfuscation alternatives `\[at\]|\(at\)|{at}|\s+at\s+` of
`OBFUSCATED_EMAIL_PATTERN` (line 122, the effective definition). -/
def atAlternatives : Rx :=
  .alt (.lit ['[', 'a', 't', ']'])
    (.alt (.lit ['(', 'a', 't', ')'])
      (.alt (.lit ['{', 'a', 't', '}'])
        (.seq wsPlus (.seq (.lit ['a', 't']) wsPlus))))

/-- The `.`-obfuscation alternatives `\[dot\]|\(dot\)|{dot}|\s+dot\s+`. -/
def dotAlternatives : Rx :=
  .alt (.lit ['[', 'd', 'o', 't', ']'])
    (.alt (.lit ['(', 'd', 'o', 't', ')'])
      (.alt (.lit ['{', 'd', 'o', 't', '}'])
        (.seq wsPlus (.seq (.lit ['d', 'o', 't']) wsPlus))))

/-- The pattern `OBFUSCATED_EMAIL_PATTERN` (line 122):
`[a-zA-Z0-9._%+-]+\s*(?:[at]-alts)\s*[a-zA-Z0-9.-]+\s*(?:[dot]-alts)\s*[a-zA-Z]{2,}`. -/
def obfuscatedEmailRx : Rx :=
  .seq (.cls isLocalChar 1 none)
    (.seq wsStar
      (.seq atAlternatives
        (.seq wsStar
          (.seq (.cls isDomainChar 1 none)
            (.seq wsStar
              (.seq dotAlternatives
                (.seq wsStar (.cls Char.isAlpha 2 none))))))))

/-- The substitution pattern of `clean_obfuscated_email` step 1 (line 1675):
`\s*\[at\]\s*|\s*\(at\)\s*|\s*{at}\s*|\s*[@]\s*|\s+at\s+`. -/
def atSubRx : Rx :=
  .alt (.seq wsStar (.seq (.lit ['[', 'a', 't', ']']) wsStar))
    (.alt (.seq wsStar (.seq (.lit ['(', 'a', 't', ')']) wsStar))
      (.alt (.seq wsStar (.seq (.lit ['{', 'a', 't', '}']) wsStar))
        (.alt (.seq wsStar (.seq (.lit ['@']) wsStar))
          (.seq wsPlus (.seq (.lit ['a', 't']) wsPlus)))))

/-- The substitution pattern of `clean_obfuscated_email` step 2 (line 1678):
`\s*\[dot\]\s*|\s*\(dot\)\s*|\s*{dot}\s*|\s*\[\.]\s*|\s*\(\.?\)\s*|\s+dot\s+`. -/
def dotSubRx : Rx :=
  .alt (.seq wsStar (.seq (.lit ['[', 'd', 'o', 't', ']']) wsStar))
    (.alt (.seq wsStar (.seq (.lit ['(', 'd', 'o', 't', ')']) wsStar))
      (.alt (.seq wsStar (.seq (.lit ['{', 'd', 'o', 't', '}']) wsStar))
        (.alt (.seq wsStar (.seq (.lit ['[', '.', ']']) wsStar))
          (.alt (.seq wsStar (.seq (.lit ['(']) (.seq (.cls (· == '.') 0 (some 1)) (.seq (.lit [')']) wsStar))))
            (.seq wsPlus (.seq (.lit ['d', 'o', 't']) wsPlus))))))

/-- Model of `clean_obfuscated_email` (lines 1669-1687, the effective definition):
normalize the `at`/`dot` obfuscations, delete remaining whitespace, keep
the result only if it matches `EMAIL_PATTERN` at position 0. -/
def cleanObfuscatedEmailL (email : List Char) : List Char :=
  match email with
  | [] => []
  | e =>
    let e1 := reSub atSubRx ['@'] e
    let e2 := reSub dotSubRx ['.'] e1
    let e3 := reSub wsPlus [] e2
    if reMatches emailRx e3 then e3 else []

/-- Model of `extract_obfuscated_email` (lines 1689-1700): find the obfuscated
candidates, clean each, keep the non-empty results in order. -/
def extractObfuscatedEmailL (content : List Char) : List (List Char) :=
  ((reFindall obfuscatedEmailRx content).map cleanObfuscatedEmailL).filter (· ≠ [])

/-- First-occurrence de-duplication; models Python's
`list(set(standard_emails + obfuscated_emails))` (whose order CPython
leaves unspecified) deterministically. -/
def dedupFirst (l : List (List Char)) : List (List Char) :=
  l.foldl (fun acc e => if e ∈ acc then acc else acc ++ [e]) []

/-- The TLD allow-list of `extract_emails_from_content` (line 1743). -/
def allowedTlds : List (List Char) :=
  [".com".data, ".in".data, ".org".data, ".co.in".data, ".net".data,
   ".edu".data, ".gov".data, ".io".data, ".info".data, ".biz".data]

/-- The placeholder block-list of `extract_emails_from_content`
(lines 1748-1751). -/
def emailBlocklist : List (List Char) :=
  ["example.com".data, "yourdomain.com".data, "domain.com".data, "email.com".data,
   "test.com".data, "someone@".data, "user@".data, "name@".data, "your@".data,
   "info@example".data, "email@".data, "test@".data]

/-- The per-candidate filter of `extract_emails_from_content`
(lines 1736-1754): length 6-100, allow-listed TLD, no block-listed
substring. -/
def emailFilterOk (email : List Char) : Bool :=
  if email.length < 6 ∨ 100 < email.length then false
  else if !(allowedTlds.any (fun tld => pyEndsWith (pyLower email) tld)) then false
  else if emailBlocklist.any (fun d => pyContains (pyLower email) d) then false
  else true

/-- Model of `extract_emails_from_content` (lines 1721-1756, the effective
definition). -/
def extractEmailsL (content : List Char) : List (List Char) :=
  match content with
  | [] => []
  | c =>
    let standard_emails := reFindall emailRx c
    let obfuscated_emails := extractObfuscatedEmailL c
    let all_emails := dedupFirst (standard_emails ++ obfuscated_emails)
    all_emails.filter emailFilterOk

/-- The function `extract_emails_from_content` on Python strings. -/
def extract_emails_from_content (content : String) : List String :=
  (extractEmailsL content.data).map String.mk

/-- Python `s.replace(pat, repl)` (all occurrences, left to right). -/
def pyReplace (s pat repl : List Char) : List Char :=
  reSub (.lit pat) repl s

/-- Python `s.split(sep)[0]`. -/
def splitFirst (s : List Char) (sep : Char) : List Char :=
  s.takeWhile (· ≠ sep)

/-- Python `s.split(sep)[1]` (the segment between the first and second
occurrence of `sep`; only used under a guard that `sep` occurs). -/
def splitSecond (s : List Char) (sep : Char) : List Char :=
  ((s.dropWhile (· ≠ sep)).drop 1).takeWhile (· ≠ sep)

/-- Does the phone string start with one of `'6789'`? (`phone[0] in '6789'`). -/
def headIn6789 : List Char → Bool
  | c :: _ => c == '6' || c == '7' || c == '8' || c == '9'
  | [] => false

/-- The `tel:`-link normalization of `extract_contacts_from_html`
(lines 1942-1953): prefix `+91` to a bare 10-digit number starting 6-9,
turn a leading `00` into `+`, otherwise prefix `+` if missing. -/
def telNormalize (phone : List Char) : List Char :=
  match phone with
  | '+' :: _ => phone
  | _ =>
    if phone.length = 10 ∧ headIn6789 phone = true then '+' :: '9' :: '1' :: phone
    else
      match phone with
      | '0' :: '0' :: rest => '+' :: rest
      | _ => '+' :: phone

/-- Shallow model of the scrapy `response` object as consumed by
`extract_contacts_from_html` (lines 1917-1981): each CSS query the
function performs becomes a field holding the list of strings that query
returns, in document order. -/
structure HtmlResponse where
  /-- Result of `response.css('p::text, span::text, a::text, div::text, h1::text, …,
  li::text').getall()` -/
  visible_texts : List String
  /-- Result of `response.css('a[href^="mailto:"]::attr(href)').getall()`. -/
  mailto_hrefs : List String
  /-- Result of `response.css('a[href^="tel:"]::attr(href)').getall()`. -/
  tel_hrefs : List String
  /-- the `meta[name*="email"] / meta[property*="email"]` contents -/
  meta_email_contents : List String

/-- Append `e` unless already present (`if x not in contacts[…]: append`). -/
def addUnique (acc : List String) (e : String) : List String :=
  if e ∈ acc then acc else acc ++ [e]

/-- Step 1 of `extract_contacts_from_html` (lines 1921-1927): emails from
visible text elements, first occurrence first. -/
def visibleTextEmails (r : HtmlResponse) : List String :=
  r.visible_texts.foldl (fun acc text => (extract_emails_from_content text).foldl addUnique acc) []

/-- Python `link.replace('mailto:', '').split('?')[0].strip()` (line 1932). -/
def mailtoEmailOf (link : String) : String :=
  String.mk (pyStrip (splitFirst (pyReplace link.data "mailto:".data []) '?'))

/-- Python `'@' in email and '.' in email.split('@')[1]` (line 1933). -/
def mailtoShapeOk (email : String) : Bool :=
  pyContains email.data ['@'] && pyContains (splitSecond email.data '@') ['.']

/-- Step 2 of `extract_contacts_from_html` (lines 1929-1937): emails from
`mailto:` links, appended after the visible-text candidates. -/
def addMailtoEmails (r : HtmlResponse) (acc : List String) : List String :=
  r.mailto_hrefs.foldl (fun acc link =>
    let email := mailtoEmailOf link
    if mailtoShapeOk email then
      if reMatches emailRx email.data then addUnique acc email else acc
    else acc) acc

/-- Step 3 of `extract_contacts_from_html` (lines 1939-1958): phones from
`tel:` links, normalized then cleaned. -/
def telPhones (r : HtmlResponse) : List String :=
  r.tel_hrefs.foldl (fun acc link =>
    let phone := pyStrip (pyReplace link.data "tel:".data [])
    let cleaned := cleanPhoneL (telNormalize phone)
    if cleaned ≠ [] ∧ String.mk cleaned ∉ acc then acc ++ [String.mk cleaned] else acc) []

/-- Step 4 of `extract_contacts_from_html` (lines 1960-1967): emails from
meta tags. -/
def addMetaEmails (r : HtmlResponse) (acc : List String) : List String :=
  r.meta_email_contents.foldl (fun acc email =>
    if pyContains email.data ['@'] && reMatches emailRx email.data then
      (extract_emails_from_content email).foldl addUnique acc
    else acc) acc

/-- The final email filter of `extract_contacts_from_html`
(lines 1969-1978): length 6-100 and allow-listed TLD. -/
def htmlEmailFinalOk (email : String) : Bool :=
  if 6 ≤ email.length ∧ email.length ≤ 100 then
    allowedTlds.any (fun tld => pyEndsWith (pyLower email.data) tld)
  else false

/-- The `{'emails': …, 'phones': …}` dictionary the function returns. -/
structure HtmlContacts where
  emails : List String
  phones : List String

/-- Model of `extract_contacts_from_html` (lines 1917-1981, the effective
definition). -/
def extract_contacts_from_html (r : HtmlResponse) : HtmlContacts :=
  let withVisible := visibleTextEmails r
  let withMailto := addMailtoEmails r withVisible
  let phones := telPhones r
  let withMeta := addMetaEmails r withMailto
  { emails := withMeta.filter htmlEmailFinalOk, phones := phones }

/-- The per-company result dictionary
`{'name': …, 'website': …, 'email': …, 'phone': …, 'source': …}`. -/
structure ContactRecord where
  name : String
  website : String
  email : String
  phone : String
  source : String

/-- The recurring guarded update
`if candidates and not self.results[key].get('email'): set` shared by the
strategy callbacks and section extractors (e.g. lines 1400-1403, and the
HTML-element step at lines 1238-1241). -/
def setEmailIfEmpty (rec : ContactRecord) (candidates : List String) (src : String) : ContactRecord :=
  match candidates, rec.email with
  | e :: _, "" => { rec with email := e, source := src }
  | _, _ => rec

/-- The phone counterpart (e.g. lines 1405-1408 and 1243-1246). -/
def setPhoneIfEmpty (rec : ContactRecord) (candidates : List String) (src : String) : ContactRecord :=
  match candidates, rec.phone with
  | p :: _, "" => { rec with phone := p, source := src }
  | _, _ => rec

/-- Step 2 of `extract_contact_info` (lines 1238-1246): record the first
HTML-element email and phone, each only when the field is still empty. -/
def applyHtmlContacts (r : HtmlResponse) (src : String) (rec : ContactRecord) : ContactRecord :=
  let html_contacts := extract_contacts_from_html r
  let rec1 := setEmailIfEmpty rec html_contacts.emails (src ++ " (html element)")
  setPhoneIfEmpty rec1 html_contacts.phones (src ++ " (html element)")

/-- The `{'email': …, 'phone': …}` dictionary returned by
`verify_contact_info`. -/
structure GeminiResult where
  email : String
  phone : String

/-- Outcome of the Gemini call inside `verify_contact_info`: any raised
exception (network, quota, malformed response, …) is `fail`; a JSON
answer that parses is `json`; a non-JSON answer from which the regex
fallback recovers the two quoted fields is `raw` (empty strings when a
field is absent). -/
inductive GeminiOutcome where
  | fail
  | json (email phone : String)
  | raw (email phone : String)

/-- Model of `verify_contact_info` (lines 1009-1150): on `fail` both fields are
empty (the `except Exception` handler); otherwise each returned value is
re-validated — the phone by `validate_phone_number` (lines 1107-1113 resp.
1135-1137), the email by `extract_emails_from_content` (lines 1116-1122
resp. 1140-1144) — and discarded when invalid. -/
def verify_contact_info : GeminiOutcome → GeminiResult
  | .fail => { email := "", phone := "" }
  | .json e p =>
    { email := if e ≠ "" ∧ extract_emails_from_content e = [] then "" else e,
      phone := if p ≠ "" ∧ validate_phone_number p = false then "" else p }
  | .raw e p =>
    { email := if e ≠ "" ∧ extract_emails_from_content e = [] then "" else e,
      phone := if p ≠ "" ∧ validate_phone_number p = false then "" else p }

/-- The block-list used by `extract_from_schema` (lines 1309-1312). -/
def schemaBlocklist : List (List Char) :=
  ["example.com".data, "yourdomain.com".data, "domain.com".data, "email.com".data,
   "someone@".data, "user@".data, "name@".data, "your@".data, "info@example".data]

/-- The email half of `extract_from_schema` (lines 1294-1316): the
candidate found in the structured data (if any) is stripped, checked
against the block-list, and recorded only when the field is empty. -/
def applySchemaEmail (rec : ContactRecord) (email : Option String) (src : String) : ContactRecord :=
  match email with
  | some e =>
    if e ≠ "" ∧ pyContains e.data ['@'] = true then
      if schemaBlocklist.any (fun d => pyContains (pyLower (pyStrip e.data)) d) then rec
      else
        match rec.email with
        | "" => { rec with email := String.mk (pyStrip e.data), source := src ++ " (schema)" }
        | _ => rec
    else rec
  | none => rec

/-- The phone half of `extract_from_schema` (lines 1318-1338). -/
def applySchemaPhone (rec : ContactRecord) (phone : Option String) (src : String) : ContactRecord :=
  match phone with
  | some p =>
    if p ≠ "" then
      if clean_phone_number p ≠ "" then
        match rec.phone with
        | "" => { rec with phone := clean_phone_number p, source := src ++ " (schema)" }
        | _ => rec
      else rec
    else rec
  | none => rec

/-- Step 3 of `extract_contact_info` (lines 1248-1263): the Gemini results
are recorded only under the `not (email and phone)` outer guard, each
field only when still empty, the phone only after `validate_phone_number`. -/
def applyGeminiEmail (rec : ContactRecord) (g : GeminiResult) (src : String) : ContactRecord :=
  if g.email ≠ "" ∧ rec.email = "" then { rec with email := g.email, source := src ++ " (gemini)" }
  else rec

/-- The phone half of step 3 (lines 1258-1263). -/
def applyGeminiPhone (rec : ContactRecord) (g : GeminiResult) (src : String) : ContactRecord :=
  if g.phone ≠ "" ∧ rec.phone = "" ∧ validate_phone_number g.phone = true then
    { rec with phone := g.phone, source := src ++ " (gemini)" }
  else rec

/-- Step 3 of `extract_contact_info` assembled (lines 1248-1263): under the
`not (email and phone)` outer guard, record the re-validated Gemini
fields. -/
def applyGemini (rec : ContactRecord) (outcome : GeminiOutcome) (src : String) : ContactRecord :=
  if rec.email ≠ "" ∧ rec.phone ≠ "" then rec
  else
    applyGeminiPhone (applyGeminiEmail rec (verify_contact_info outcome) src)
      (verify_contact_info outcome) src

/-- One guarded write of extracted candidates into
`self.results[company_key]`.  Each constructor carries the candidates one
write site produces and stands for that site: `section_extract` for
`extract_from_section` (lines 1399-1408) and the contact form, block and
card writes of `parse_contact_page` (lines 1442-1496); `schema_extract` for
`extract_from_schema`; `html_element` for step 2 of `extract_contact_info`;
`gemini_step` for its step 3 (and the Gemini writes of the IndiaMart and
Facebook callbacks, lines 979-1004 and 1580-1589); `strategy_lists` for
the candidate-list writes of the LinkedIn/IndiaMart/Facebook callbacks
(lines 636-644, 746-757, 779-789, 874-877, 891-895, 960-970, 1638-1646)
and step 4 of `extract_contact_info` (lines 1266-1282). -/
inductive WriteEvent where
  | section_extract (emails phones : List String) (src section_type : String)
  | schema_extract (email phone : Option String) (src : String)
  | html_element (r : HtmlResponse) (src : String)
  | gemini_step (outcome : GeminiOutcome) (src : String)
  | strategy_lists (emails phones : List String) (src : String)

/-- Apply one write event to the company's record. -/
def apply_write (rec : ContactRecord) (ev : WriteEvent) : ContactRecord :=
  match ev with
  | .section_extract emails phones src sec =>
    let rec1 := setEmailIfEmpty rec emails (src ++ " (" ++ sec ++ ")")
    setPhoneIfEmpty rec1 phones (src ++ " (" ++ sec ++ ")")
  | .schema_extract oe op src => applySchemaPhone (applySchemaEmail rec oe src) op src
  | .html_element r src => applyHtmlContacts r src rec
  | .gemini_step outcome src => applyGemini rec outcome src
  | .strategy_lists emails phones src =>
    let rec1 := setEmailIfEmpty rec emails src
    setPhoneIfEmpty rec1 phones src

/-- The per-company persistent state seen by `save_result`: the optional
entry of `self.results`, the dynamic `saved_<company>` attribute, and the
rows appended so far to the output CSV. -/
structure SaveState where
  result : Option ContactRecord
  saved : Bool
  output : List (List String)

/-- Model of `save_result` (lines 1502-1518): append the record's row only when the
record exists, has an email or a phone, and has not been saved; then mark
it saved. -/
def save_result (s : SaveState) : SaveState :=
  match s.result with
  | some r =>
    if (r.email ≠ "" ∨ r.phone ≠ "") ∧ s.saved = false then
      { s with
        output := s.output ++ [[r.name, r.website, r.email, r.phone, r.source]],
        saved := true }
    else s
  | none => s

/-- The `is_contact_page` test of `parse_contact_page` (lines 1418-1427). -/
def is_likely_contact_page (url title body : String) : Bool :=
  let url_lower := pyLower url.data
  let page_title := pyLower title.data
  let body_text := pyLower body.data
  pyContains url_lower "contact".data || pyContains url_lower "about".data ||
  pyContains page_title "contact".data || pyContains page_title "about".data ||
  (pyContains body_text "contact".data &&
    (pyContains body_text "email".data || pyContains body_text "phone".data ||
     pyContains body_text "call".data))

/-- The classifier as the claim states it: URL or title contains
`contact`/`about`, or the body contains `contact` **or `about`** together
with an `email`/`phone`/`call` indicator. -/
def ClaimLikelyContactPage (url title body : String) : Prop :=
  pyContains (pyLower url.data) "contact".data = true ∨
  pyContains (pyLower url.data) "about".data = true ∨
  pyContains (pyLower title.data) "contact".data = true ∨
  pyContains (pyLower title.data) "about".data = true ∨
  ((pyContains (pyLower body.data) "contact".data = true ∨
    pyContains (pyLower body.data) "about".data = true) ∧
   (pyContains (pyLower body.data) "email".data = true ∨
    pyContains (pyLower body.data) "phone".data = true ∨
    pyContains (pyLower body.data) "call".data = true))

/-- The amended classifier statement: as the claim, except that the
body-text branch fires on `contact` only. -/
def AmendedLikelyContactPage (url title body : String) : Prop :=
  pyContains (pyLower url.data) "contact".data = true ∨
  pyContains (pyLower url.data) "about".data = true ∨
  pyContains (pyLower title.data) "contact".data = true ∨
  pyContains (pyLower title.data) "about".data = true ∨
  (pyContains (pyLower body.data) "contact".data = true ∧
   (pyContains (pyLower body.data) "email".data = true ∨
    pyContains (pyLower body.data) "phone".data = true ∨
    pyContains (pyLower body.data) "call".data = true))

/-- Python `name.lower().split()`: maximal whitespace-free words, as a set
(`set(name.split())` in `similarity_score`). -/
def wordSet (s : String) : Finset String :=
  ((((pyLower s.data).splitOnP (fun c => c.isWhitespace)).filter (· ≠ [])).map String.mk).toFinset

/-- Model of `similarity_score` (lines 520-534): Jaccard index of the lowercased
word sets, `0` when either set is empty (Python's float division modelled
in `ℚ`). -/
def similarity_score (name1 name2 : String) : ℚ :=
  if (wordSet name1).card = 0 ∨ (wordSet name2).card = 0 then 0
  else ((wordSet name1 ∩ wordSet name2).card : ℚ) / ((wordSet name1 ∪ wordSet name2).card : ℚ)

/-- The character class `[\d\s\-()]` of the effective
`PHONE_PATTERN = r'\+[\d\s\-()]{7,20}'` (line 125). -/
def isPhonePatternChar (c : Char) : Bool :=
  c.isDigit || c.isWhitespace || c == '-' || c == '(' || c == ')'

/-- A freshly initialised result record (lines 1188-1194). -/
def emptyRecord : ContactRecord :=
  { name := "Acme Tools Pvt Ltd", website := "", email := "", phone := "", source := "" }

/-- A page carrying one plain-text email candidate and one different
`mailto:` candidate. -/
def mailtoTestPage : HtmlResponse :=
  { visible_texts := ["contact: sales@acmetools.com"],
    mailto_hrefs := ["mailto:info@acmetools.com"],
    tel_hrefs := [],
    meta_email_contents := [] }

/-! ## Helper lemmas -/

theorem char_toNat_inj {c d : Char} (h : c.toNat = d.toNat) : c = d :=
  Char.eq_of_val_eq (UInt32.eq_of_toBitVec_eq (by
    have := h
    simp [Char.toNat, UInt32.toNat] at this
    exact BitVec.eq_of_toNat_eq this))

theorem toNat_bounds_of_isDigit {c : Char} (h : c.isDigit = true) :
    48 ≤ c.toNat ∧ c.toNat ≤ 57 := by
  simp [Char.isDigit] at h
  obtain ⟨h1, h2⟩ := h
  exact ⟨h1, h2⟩

theorem mem_ascendingDigits_of_isDigit {c : Char} (h : c.isDigit = true) :
    c ∈ ascendingDigits := by
  obtain ⟨h1, h2⟩ := toNat_bounds_of_isDigit h
  have hd : ascendingDigits = ['0', '1', '2', '3', '4', '5', '6', '7', '8', '9'] := rfl
  rw [hd]
  simp only [List.mem_cons, List.not_mem_nil, or_false]
  interval_cases h : c.toNat
  · exact Or.inl (char_toNat_inj (by rw [h]; rfl))
  · exact Or.inr (Or.inl (char_toNat_inj (by rw [h]; rfl)))
  · exact Or.inr (Or.inr (Or.inl (char_toNat_inj (by rw [h]; rfl))))
  · exact Or.inr (Or.inr (Or.inr (Or.inl (char_toNat_inj (by rw [h]; rfl)))))
  · exact Or.inr (Or.inr (Or.inr (Or.inr (Or.inl (char_toNat_inj (by rw [h]; rfl))))))
  · exact Or.inr (Or.inr (Or.inr (Or.inr (Or.inr (Or.inl (char_toNat_inj (by rw [h]; rfl)))))))
  · exact Or.inr (Or.inr (Or.inr (Or.inr (Or.inr (Or.inr (Or.inl (char_toNat_inj (by rw [h]; rfl))))))))
  · exact Or.inr (Or.inr (Or.inr (Or.inr (Or.inr (Or.inr (Or.inr (Or.inl (char_toNat_inj (by rw [h]; rfl)))))))))
  · exact Or.inr (Or.inr (Or.inr (Or.inr (Or.inr (Or.inr (Or.inr (Or.inr (Or.inl (char_toNat_inj (by rw [h]; rfl))))))))))
  · exact Or.inr (Or.inr (Or.inr (Or.inr (Or.inr (Or.inr (Or.inr (Or.inr (Or.inr (char_toNat_inj (by rw [h]; rfl))))))))))

theorem digitCharVals :
    ('0').toNat = 48 ∧ ('1').toNat = 49 ∧ ('2').toNat = 50 ∧ ('3').toNat = 51 ∧
    ('4').toNat = 52 ∧ ('5').toNat = 53 ∧ ('6').toNat = 54 ∧ ('7').toNat = 55 ∧
    ('8').toNat = 56 ∧ ('9').toNat = 57 := by
  decide

theorem identicalRun_iff (l : List Char) (hl : ∀ c ∈ l, c.isDigit = true) :
    (ascendingDigits.any fun d => decide (List.replicate 7 d <:+: l)) = true ↔
      HasIdenticalRun l 7 := by
  constructor
  · intro h
    rw [List.any_eq_true] at h
    obtain ⟨d, _, hd⟩ := h
    rw [decide_eq_true_eq] at hd
    exact ⟨d, List.replicate 7 d, hd, by simp, fun c hc => List.eq_of_mem_replicate hc⟩
  · rintro ⟨d, run, hinf, hlen, hall⟩
    rw [List.any_eq_true]
    have hne : run ≠ [] := by
      intro h
      subst h
      simp at hlen
    have hd_run : d ∈ run := by
      cases run with
      | nil => exact absurd rfl hne
      | cons a t =>
        rw [← hall a (by simp)]
        simp
    refine ⟨d, mem_ascendingDigits_of_isDigit (hl d (hinf.subset hd_run)), ?_⟩
    rw [decide_eq_true_eq]
    have hrep : run = List.replicate run.length d := List.eq_replicate_length.mpr hall
    have hpre : List.replicate 7 d <+: run := by
      rw [hrep]
      exact ⟨List.replicate (run.length - 7) d, by
        rw [← List.replicate_add]
        congr 1
        omega⟩
    exact hpre.isInfix.trans hinf

theorem ascendingRun_iff (l : List Char) (hl : ∀ c ∈ l, c.isDigit = true) :
    ((List.range 3).any fun i => decide ((ascendingDigits.drop i).take 8 <:+: l)) = true ↔
      HasAscendingRun l 8 := by
  constructor
  · intro h
    rw [List.any_eq_true] at h
    obtain ⟨i, hi, hd⟩ := h
    rw [decide_eq_true_eq] at hd
    rw [List.mem_range] at hi
    interval_cases i
    · refine ⟨_, hd, by decide, ?_⟩
      show List.Chain' _ ['0', '1', '2', '3', '4', '5', '6', '7']
      simp only [List.chain'_cons, List.chain'_singleton, and_true]
      refine ⟨?_, ?_, ?_, ?_, ?_, ?_, ?_⟩ <;> decide
    · refine ⟨_, hd, by decide, ?_⟩
      show List.Chain' _ ['1', '2', '3', '4', '5', '6', '7', '8']
      simp only [List.chain'_cons, List.chain'_singleton, and_true]
      refine ⟨?_, ?_, ?_, ?_, ?_, ?_, ?_⟩ <;> decide
    · refine ⟨_, hd, by decide, ?_⟩
      show List.Chain' _ ['2', '3', '4', '5', '6', '7', '8', '9']
      simp only [List.chain'_cons, List.chain'_singleton, and_true]
      refine ⟨?_, ?_, ?_, ?_, ?_, ?_, ?_⟩ <;> decide
  · rintro ⟨run, hinf, hlen, hchain⟩
    rcases run with _ | ⟨c0, run⟩; · simp at hlen
    rcases run with _ | ⟨c1, run⟩; · simp at hlen
    rcases run with _ | ⟨c2, run⟩; · simp at hlen
    rcases run with _ | ⟨c3, run⟩; · simp at hlen
    rcases run with _ | ⟨c4, run⟩; · simp at hlen
    rcases run with _ | ⟨c5, run⟩; · simp at hlen
    rcases run with _ | ⟨c6, run⟩; · simp at hlen
    rcases run with _ | ⟨c7, run⟩; · simp at hlen
    have hrun : run = [] := by
      simp only [List.length_cons] at hlen
      exact List.length_eq_zero.mp (by omega)
    subst hrun
    simp only [List.chain'_cons, List.chain'_singleton, and_true] at hchain
    obtain ⟨h01, h12, h23, h34, h45, h56, h67⟩ := hchain
    have hb0 := toNat_bounds_of_isDigit (hl c0 (hinf.subset (by simp)))
    have hb7 := toNat_bounds_of_isDigit (hl c7 (hinf.subset (by simp)))
    obtain ⟨v0, v1, v2, v3, v4, v5, v6, v7, v8, v9⟩ := digitCharVals
    rw [List.any_eq_true]
    have hc0l : 48 ≤ c0.toNat := hb0.1
    have hc0r : c0.toNat ≤ 50 := by omega
    interval_cases h0 : c0.toNat
    · have e0 : c0 = '0' := char_toNat_inj (by omega)
      have e1 : c1 = '1' := char_toNat_inj (by omega)
      have e2 : c2 = '2' := char_toNat_inj (by omega)
      have e3 : c3 = '3' := char_toNat_inj (by omega)
      have e4 : c4 = '4' := char_toNat_inj (by omega)
      have e5 : c5 = '5' := char_toNat_inj (by omega)
      have e6 : c6 = '6' := char_toNat_inj (by omega)
      have e7 : c7 = '7' := char_toNat_inj (by omega)
      subst e0 e1 e2 e3 e4 e5 e6 e7
      exact ⟨0, by decide, decide_eq_true hinf⟩
    · have e0 : c0 = '1' := char_toNat_inj (by omega)
      have e1 : c1 = '2' := char_toNat_inj (by omega)
      have e2 : c2 = '3' := char_toNat_inj (by omega)
      have e3 : c3 = '4' := char_toNat_inj (by omega)
      have e4 : c4 = '5' := char_toNat_inj (by omega)
      have e5 : c5 = '6' := char_toNat_inj (by omega)
      have e6 : c6 = '7' := char_toNat_inj (by omega)
      have e7 : c7 = '8' := char_toNat_inj (by omega)
      subst e0 e1 e2 e3 e4 e5 e6 e7
      exact ⟨1, by decide, decide_eq_true hinf⟩
    · have e0 : c0 = '2' := char_toNat_inj (by omega)
      have e1 : c1 = '3' := char_toNat_inj (by omega)
      have e2 : c2 = '4' := char_toNat_inj (by omega)
      have e3 : c3 = '5' := char_toNat_inj (by omega)
      have e4 : c4 = '6' := char_toNat_inj (by omega)
      have e5 : c5 = '7' := char_toNat_inj (by omega)
      have e6 : c6 = '8' := char_toNat_inj (by omega)
      have e7 : c7 = '9' := char_toNat_inj (by omega)
      subst e0 e1 e2 e3 e4 e5 e6 e7
      exact ⟨2, by decide, decide_eq_true hinf⟩

theorem descendingRun_iff (l : List Char) (hl : ∀ c ∈ l, c.isDigit = true) :
    ((List.range 3).any fun i => decide ((descendingDigits.drop i).take 8 <:+: l)) = true ↔
      HasDescendingRun l 8 := by
  constructor
  · intro h
    rw [List.any_eq_true] at h
    obtain ⟨i, hi, hd⟩ := h
    rw [decide_eq_true_eq] at hd
    rw [List.mem_range] at hi
    interval_cases i
    · refine ⟨_, hd, by decide, ?_⟩
      show List.Chain' _ ['9', '8', '7', '6', '5', '4', '3', '2']
      simp only [List.chain'_cons, List.chain'_singleton, and_true]
      refine ⟨?_, ?_, ?_, ?_, ?_, ?_, ?_⟩ <;> decide
    · refine ⟨_, hd, by decide, ?_⟩
      show List.Chain' _ ['8', '7', '6', '5', '4', '3', '2', '1']
      simp only [List.chain'_cons, List.chain'_singleton, and_true]
      refine ⟨?_, ?_, ?_, ?_, ?_, ?_, ?_⟩ <;> decide
    · refine ⟨_, hd, by decide, ?_⟩
      show List.Chain' _ ['7', '6', '5', '4', '3', '2', '1', '0']
      simp only [List.chain'_cons, List.chain'_singleton, and_true]
      refine ⟨?_, ?_, ?_, ?_, ?_, ?_, ?_⟩ <;> decide
  · rintro ⟨run, hinf, hlen, hchain⟩
    rcases run with _ | ⟨c0, run⟩; · simp at hlen
    rcases run with _ | ⟨c1, run⟩; · simp at hlen
    rcases run with _ | ⟨c2, run⟩; · simp at hlen
    rcases run with _ | ⟨c3, run⟩; · simp at hlen
    rcases run with _ | ⟨c4, run⟩; · simp at hlen
    rcases run with _ | ⟨c5, run⟩; · simp at hlen
    rcases run with _ | ⟨c6, run⟩; · simp at hlen
    rcases run with _ | ⟨c7, run⟩; · simp at hlen
    have hrun : run = [] := by
      simp only [List.length_cons] at hlen
      exact List.length_eq_zero.mp (by omega)
    subst hrun
    simp only [List.chain'_cons, List.chain'_singleton, and_true] at hchain
    obtain ⟨h01, h12, h23, h34, h45, h56, h67⟩ := hchain
    have hb0 := toNat_bounds_of_isDigit (hl c0 (hinf.subset (by simp)))
    have hb7 := toNat_bounds_of_isDigit (hl c7 (hinf.subset (by simp)))
    obtain ⟨v0, v1, v2, v3, v4, v5, v6, v7, v8, v9⟩ := digitCharVals
    rw [List.any_eq_true]
    have hc0l : 55 ≤ c0.toNat := by omega
    have hc0r : c0.toNat ≤ 57 := hb0.2
    interval_cases h0 : c0.toNat
    · have e0 : c0 = '7' := char_toNat_inj (by omega)
      have e1 : c1 = '6' := char_toNat_inj (by omega)
      have e2 : c2 = '5' := char_toNat_inj (by omega)
      have e3 : c3 = '4' := char_toNat_inj (by omega)
      have e4 : c4 = '3' := char_toNat_inj (by omega)
      have e5 : c5 = '2' := char_toNat_inj (by omega)
      have e6 : c6 = '1' := char_toNat_inj (by omega)
      have e7 : c7 = '0' := char_toNat_inj (by omega)
      subst e0 e1 e2 e3 e4 e5 e6 e7
      exact ⟨2, by decide, decide_eq_true hinf⟩
    · have e0 : c0 = '8' := char_toNat_inj (by omega)
      have e1 : c1 = '7' := char_toNat_inj (by omega)
      have e2 : c2 = '6' := char_toNat_inj (by omega)
      have e3 : c3 = '5' := char_toNat_inj (by omega)
      have e4 : c4 = '4' := char_toNat_inj (by omega)
      have e5 : c5 = '3' := char_toNat_inj (by omega)
      have e6 : c6 = '2' := char_toNat_inj (by omega)
      have e7 : c7 = '1' := char_toNat_inj (by omega)
      subst e0 e1 e2 e3 e4 e5 e6 e7
      exact ⟨1, by decide, decide_eq_true hinf⟩
    · have e0 : c0 = '9' := char_toNat_inj (by omega)
      have e1 : c1 = '8' := char_toNat_inj (by omega)
      have e2 : c2 = '7' := char_toNat_inj (by omega)
      have e3 : c3 = '6' := char_toNat_inj (by omega)
      have e4 : c4 = '5' := char_toNat_inj (by omega)
      have e5 : c5 = '4' := char_toNat_inj (by omega)
      have e6 : c6 = '3' := char_toNat_inj (by omega)
      have e7 : c7 = '2' := char_toNat_inj (by omega)
      subst e0 e1 e2 e3 e4 e5 e6 e7
      exact ⟨0, by decide, decide_eq_true hinf⟩

theorem validatePhoneL_iff (l : List Char) :
    validatePhoneL l = true ↔
      ∃ rest, l = '+' :: rest ∧
        10 ≤ (digitsOnly rest).length ∧ (digitsOnly rest).length ≤ 15 ∧
        ¬ HasIdenticalRun (digitsOnly rest) 7 ∧
        ¬ HasAscendingRun (digitsOnly rest) 8 ∧
        ¬ HasDescendingRun (digitsOnly rest) 8 := by
  have hdig : ∀ rest : List Char, ∀ c ∈ digitsOnly rest, c.isDigit = true :=
    fun rest c hc => (List.mem_filter.mp hc).2
  rw [validatePhoneL.eq_def]
  split
  case h_1 rest =>
    simp only [List.cons.injEq, true_and, exists_eq_left']
    split_ifs with h1 h2 h3 h4
    · simp only [Bool.false_eq_true, false_iff]
      rintro ⟨h10, h15, -⟩
      omega
    · simp only [Bool.false_eq_true, false_iff]
      rw [identicalRun_iff _ (hdig rest)] at h2
      rintro ⟨-, -, hno, -⟩
      exact hno h2
    · simp only [Bool.false_eq_true, false_iff]
      rw [ascendingRun_iff _ (hdig rest)] at h3
      rintro ⟨-, -, -, hno, -⟩
      exact hno h3
    · simp only [Bool.false_eq_true, false_iff]
      rw [descendingRun_iff _ (hdig rest)] at h4
      rintro ⟨-, -, -, -, hno⟩
      exact hno h4
    · simp only [true_iff]
      rw [identicalRun_iff _ (hdig rest)] at h2
      rw [ascendingRun_iff _ (hdig rest)] at h3
      rw [descendingRun_iff _ (hdig rest)] at h4
      exact ⟨by omega, by omega, h2, h3, h4⟩
  case h_2 hni =>
    simp only [Bool.false_eq_true, false_iff]
    rintro ⟨rest, hrest, -⟩
    exact hni rest hrest

/-! ## Claim theorems -/

/-- C3.  The phone validator accepts a string iff it begins with `+`, has
10-15 digits ignoring separators, contains no run of 7 or more identical
digits, and contains no 8-digit ascending or descending consecutive run;
in particular strings not beginning with `+` are rejected, as is any
string whose digits contain `11111111`. -/
theorem validate_phone_number_spec (p : String) :
    validate_phone_number p = true ↔ SpecPhoneValid p :=
  validatePhoneL_iff p.data

theorem cleanPhoneL_cons_plus (rest : List Char) :
    cleanPhoneL ('+' :: rest) =
      if (digitsOnly (rest.filter (fun c => !isPhoneSeparator c))).length < 10 ∨
          15 < (digitsOnly (rest.filter (fun c => !isPhoneSeparator c))).length then []
      else if validatePhoneL ('+' :: rest.filter (fun c => !isPhoneSeparator c)) then
        '+' :: rest.filter (fun c => !isPhoneSeparator c)
      else [] := rfl

theorem cleanPhoneL_not_plus {c : Char} (rest : List Char) (h : c ≠ '+') :
    cleanPhoneL (c :: rest) = [] := by
  rw [cleanPhoneL.eq_def]
  split
  · next heq => exact absurd (List.head_eq_of_cons_eq heq.symm).symm h
  · rfl

theorem cleanPhoneL_valid (l : List Char) (h : cleanPhoneL l ≠ []) :
    validatePhoneL (cleanPhoneL l) = true := by
  cases l with
  | nil => exact absurd rfl h
  | cons c rest =>
    by_cases hc : c = '+'
    · subst hc
      rw [cleanPhoneL_cons_plus] at h ⊢
      split_ifs at h ⊢ with h1 h2
      · exact absurd rfl h
      · exact h2
      · exact absurd rfl h
    · rw [cleanPhoneL_not_plus rest hc] at h
      exact absurd rfl h

theorem cleanPhoneL_idem (l : List Char) (h : cleanPhoneL l ≠ []) :
    cleanPhoneL (cleanPhoneL l) = cleanPhoneL l := by
  cases l with
  | nil => exact absurd rfl h
  | cons c rest =>
    by_cases hc : c = '+'
    · subst hc
      rw [cleanPhoneL_cons_plus] at h ⊢
      split_ifs at h ⊢ with h1 h2
      · exact absurd rfl h
      · have hkeep : (rest.filter (fun c => !isPhoneSeparator c)).filter
            (fun c => !isPhoneSeparator c) = rest.filter (fun c => !isPhoneSeparator c) := by
          simp [List.filter_filter]
        rw [cleanPhoneL_cons_plus, hkeep, if_neg h1, if_pos h2]
      · exact absurd rfl h
    · rw [cleanPhoneL_not_plus rest hc] at h
      exact absurd rfl h

theorem isDigit_of_pattern_not_sep {c : Char} (hp : isPhonePatternChar c = true)
    (hs : isPhoneSeparator c = false) : c.isDigit = true := by
  simp only [isPhonePatternChar, Bool.or_eq_true] at hp
  simp only [isPhoneSeparator, Bool.or_eq_false_iff] at hs
  obtain ⟨⟨⟨hw, hh⟩, hop⟩, hcp⟩ := hs
  rcases hp with ((((h | h) | h) | h) | h)
  · exact h
  · rw [h] at hw; exact Bool.noConfusion hw
  · rw [h] at hh; exact Bool.noConfusion hh
  · rw [h] at hop; exact Bool.noConfusion hop
  · rw [h] at hcp; exact Bool.noConfusion hcp

theorem cleanPhoneL_pattern (body : List Char)
    (hb : ∀ c ∈ body, isPhonePatternChar c = true) (h : cleanPhoneL ('+' :: body) ≠ []) :
    ∃ ds, cleanPhoneL ('+' :: body) = '+' :: ds ∧ 10 ≤ ds.length ∧ ds.length ≤ 15 ∧
      ∀ c ∈ ds, c.isDigit = true := by
  rw [cleanPhoneL_cons_plus] at h ⊢
  split_ifs at h ⊢ with h1 h2
  · exact absurd rfl h
  · refine ⟨body.filter (fun c => !isPhoneSeparator c), rfl, ?_, ?_, ?_⟩
    · have hdig : ∀ c ∈ body.filter (fun c => !isPhoneSeparator c), c.isDigit = true := by
        intro c hc
        obtain ⟨hcb, hcs⟩ := List.mem_filter.mp hc
        exact isDigit_of_pattern_not_sep (hb c hcb) (by simpa using hcs)
      have : digitsOnly (body.filter (fun c => !isPhoneSeparator c)) =
          body.filter (fun c => !isPhoneSeparator c) := List.filter_eq_self.mpr hdig
      rw [this] at h1
      omega
    · have hdig : ∀ c ∈ body.filter (fun c => !isPhoneSeparator c), c.isDigit = true := by
        intro c hc
        obtain ⟨hcb, hcs⟩ := List.mem_filter.mp hc
        exact isDigit_of_pattern_not_sep (hb c hcb) (by simpa using hcs)
      have : digitsOnly (body.filter (fun c => !isPhoneSeparator c)) =
          body.filter (fun c => !isPhoneSeparator c) := List.filter_eq_self.mpr hdig
      rw [this] at h1
      omega
    · intro c hc
      obtain ⟨hcb, hcs⟩ := List.mem_filter.mp hc
      exact isDigit_of_pattern_not_sep (hb c hcb) (by simpa using hcs)
  · exact absurd rfl h

/-- C2 (counterexample).  The spec's scenario value is rejected, not
accepted: the `tel:` normalization does turn `9876543210` into
`+919876543210`, but `validate_phone_number` rejects that number (its
digit string contains the descending run `98765432`), and the cleaning of
the visible-text candidate `+91 9876543210` therefore yields the empty
string rather than `+919876543210`. -/
theorem tel_scenario_counterexample :
    telNormalize "9876543210".data = "+919876543210".data ∧
    validate_phone_number "+919876543210" = false ∧
    clean_phone_number "+91 9876543210" = "" := by
  refine ⟨by decide, by decide, ?_⟩
  rfl

/-- C2 (amended).  For a 10-digit local number starting 6-9, the `tel:`
normalization prefixes `+91`; the resulting 12-digit candidate is accepted
by the validator iff its digit string `91…` has no run of 7 or more
identical digits and no 8-digit ascending or descending consecutive run —
rather than unconditionally, as the claim stated (`+919876543210` itself
fails the descending-run check, so spec scenario 2 ends with an empty
phone field). -/
theorem tel_plus91_normalization_amended (p : String) (hlen : p.length = 10)
    (hdig : ∀ c ∈ p.data, c.isDigit = true) (hhead : headIn6789 p.data = true) :
    telNormalize p.data = '+' :: '9' :: '1' :: p.data ∧
    (validate_phone_number ("+91" ++ p) = true ↔
      (¬ HasIdenticalRun ('9' :: '1' :: p.data) 7 ∧
       ¬ HasAscendingRun ('9' :: '1' :: p.data) 8 ∧
       ¬ HasDescendingRun ('9' :: '1' :: p.data) 8)) := by
  obtain ⟨d⟩ := p
  have hlen' : d.length = 10 := hlen
  have hdigs : digitsOnly ('9' :: '1' :: d) = '9' :: '1' :: d := by
    refine List.filter_eq_self.mpr ?_
    intro c hc
    rcases List.mem_cons.mp hc with h | hc
    · subst h; decide
    rcases List.mem_cons.mp hc with h | hc
    · subst h; decide
    exact hdig c hc
  constructor
  · cases hd : d with
    | nil => rw [hd] at hhead; exact absurd hhead (by decide)
    | cons c t =>
      have hc6789 : c = '6' ∨ c = '7' ∨ c = '8' ∨ c = '9' := by
        rw [hd] at hhead
        simp [headIn6789] at hhead
        tauto
      have hcne : c ≠ '+' := by
        rcases hc6789 with h | h | h | h <;> (subst h; decide)
      rw [telNormalize.eq_def]
      split
      · next heq => exact absurd (List.head_eq_of_cons_eq heq.symm).symm hcne
      · rw [if_pos ⟨by rw [← hd]; exact hlen', by rw [← hd]; exact hhead⟩]
  · have hdata : ("+91" ++ String.mk d).data = '+' :: '9' :: '1' :: d := rfl
    show validatePhoneL (("+91" ++ String.mk d).data) = true ↔ _
    rw [hdata, validatePhoneL_iff]
    simp only [List.cons.injEq, true_and, exists_eq_left']
    rw [hdigs]
    have h12 : ('9' :: '1' :: d).length = 12 := by simp [hlen']
    constructor
    · rintro ⟨-, -, ha, hb, hc⟩
      exact ⟨ha, hb, hc⟩
    · rintro ⟨ha, hb, hc⟩
      exact ⟨by omega, by omega, ha, hb, hc⟩

/-- C2 (witness).  A concrete 10-digit number starting with 9 is
normalized to `+91…` and, containing no forbidden run, is accepted. -/
theorem tel_plus91_normalization_amended_witness :
    telNormalize "9876501234".data = '+' :: '9' :: '1' :: "9876501234".data ∧
    ¬ HasAscendingRun ('9' :: '1' :: "9876501234".data) 8 := by
  have h := tel_plus91_normalization_amended "9876501234" (by decide) (by decide) (by decide)
  exact ⟨h.1, (h.2.mp (by decide)).2.1⟩

/-- C10.  On any input matching the phone-candidate pattern (`+` followed
by digits, spaces, hyphens and parentheses), `clean_phone_number` returns
either the empty string or `+` followed by 10-15 digits; every non-empty
result passes `validate_phone_number`; and `clean_phone_number` is
idempotent on its non-empty outputs. -/
theorem clean_phone_number_spec (p : String) :
    ((∃ body, p.data = '+' :: body ∧ ∀ c ∈ body, isPhonePatternChar c = true) →
      clean_phone_number p = "" ∨
      ∃ ds, (clean_phone_number p).data = '+' :: ds ∧ 10 ≤ ds.length ∧ ds.length ≤ 15 ∧
        ∀ c ∈ ds, c.isDigit = true) ∧
    (clean_phone_number p ≠ "" → validate_phone_number (clean_phone_number p) = true) ∧
    (clean_phone_number p ≠ "" → clean_phone_number (clean_phone_number p) = clean_phone_number p) := by
  obtain ⟨d⟩ := p
  have hmk : ∀ l : List Char, (String.mk l ≠ "") ↔ l ≠ [] := by
    intro l
    constructor
    · intro h hl
      exact h (by rw [hl])
    · intro h hl
      exact h (congrArg String.data hl)
  refine ⟨?_, ?_, ?_⟩
  · rintro ⟨body, hbd, hb⟩
    have hd : d = '+' :: body := hbd
    subst hd
    by_cases h : cleanPhoneL ('+' :: body) = []
    · left
      show String.mk (cleanPhoneL ('+' :: body)) = ""
      rw [h]
    · right
      obtain ⟨ds, hds, h10, h15, hdig⟩ := cleanPhoneL_pattern body hb h
      exact ⟨ds, by show cleanPhoneL ('+' :: body) = _; rw [hds], h10, h15, hdig⟩
  · intro h
    exact cleanPhoneL_valid d ((hmk _).mp h)
  · intro h
    show String.mk (cleanPhoneL (cleanPhoneL d)) = String.mk (cleanPhoneL d)
    rw [cleanPhoneL_idem d ((hmk _).mp h)]

/-- C10 (witness).  A concrete pattern-shaped input is cleaned to `+`
followed by 12 digits, passes the validator, and cleaning is idempotent
on it. -/
theorem clean_phone_number_spec_witness :
    clean_phone_number "+91 98765-01234" ≠ "" ∧
    validate_phone_number (clean_phone_number "+91 98765-01234") = true ∧
    clean_phone_number (clean_phone_number "+91 98765-01234") = clean_phone_number "+91 98765-01234" :=
  ⟨by decide, (clean_phone_number_spec "+91 98765-01234").2.1 (by decide),
    (clean_phone_number_spec "+91 98765-01234").2.2 (by decide)⟩

theorem setEmailIfEmpty_email_ne {rec : ContactRecord} {cs : List String} {src : String}
    (h : rec.email ≠ "") : (setEmailIfEmpty rec cs src).email = rec.email := by
  unfold setEmailIfEmpty
  split
  · simp_all
  · rfl

theorem setEmailIfEmpty_phone (rec : ContactRecord) (cs : List String) (src : String) :
    (setEmailIfEmpty rec cs src).phone = rec.phone := by
  unfold setEmailIfEmpty
  split <;> rfl

theorem setPhoneIfEmpty_phone_ne {rec : ContactRecord} {cs : List String} {src : String}
    (h : rec.phone ≠ "") : (setPhoneIfEmpty rec cs src).phone = rec.phone := by
  unfold setPhoneIfEmpty
  split
  · simp_all
  · rfl

theorem setPhoneIfEmpty_email (rec : ContactRecord) (cs : List String) (src : String) :
    (setPhoneIfEmpty rec cs src).email = rec.email := by
  unfold setPhoneIfEmpty
  split <;> rfl

theorem setEmailIfEmpty_sets {rec : ContactRecord} {v : String} {vs : List String}
    {src : String} (h : rec.email = "") : (setEmailIfEmpty rec (v :: vs) src).email = v := by
  simp [setEmailIfEmpty, h]

theorem setPhoneIfEmpty_sets {rec : ContactRecord} {v : String} {vs : List String}
    {src : String} (h : rec.phone = "") : (setPhoneIfEmpty rec (v :: vs) src).phone = v := by
  simp [setPhoneIfEmpty, h]

theorem applySchemaEmail_email_ne {rec : ContactRecord} {oe : Option String} {src : String}
    (h : rec.email ≠ "") : (applySchemaEmail rec oe src).email = rec.email := by
  unfold applySchemaEmail
  split
  · split_ifs
    · rfl
    · split
      · simp_all
      · rfl
    · rfl
  · rfl

theorem applySchemaEmail_phone (rec : ContactRecord) (oe : Option String) (src : String) :
    (applySchemaEmail rec oe src).phone = rec.phone := by
  unfold applySchemaEmail
  split
  · split_ifs
    · rfl
    · split <;> rfl
    · rfl
  · rfl

theorem applySchemaPhone_phone_ne {rec : ContactRecord} {op : Option String} {src : String}
    (h : rec.phone ≠ "") : (applySchemaPhone rec op src).phone = rec.phone := by
  unfold applySchemaPhone
  split
  · split_ifs
    · split
      · simp_all
      · rfl
    · rfl
    · rfl
  · rfl

theorem applySchemaPhone_email (rec : ContactRecord) (op : Option String) (src : String) :
    (applySchemaPhone rec op src).email = rec.email := by
  unfold applySchemaPhone
  split
  · split_ifs
    · split <;> rfl
    · rfl
    · rfl
  · rfl

theorem applyHtmlContacts_email_ne {r : HtmlResponse} {src : String} {rec : ContactRecord}
    (h : rec.email ≠ "") : (applyHtmlContacts r src rec).email = rec.email := by
  simp only [applyHtmlContacts]
  rw [setPhoneIfEmpty_email, setEmailIfEmpty_email_ne h]

theorem applyHtmlContacts_phone_ne {r : HtmlResponse} {src : String} {rec : ContactRecord}
    (h : rec.phone ≠ "") : (applyHtmlContacts r src rec).phone = rec.phone := by
  simp only [applyHtmlContacts]
  rw [setPhoneIfEmpty_phone_ne (by rw [setEmailIfEmpty_phone]; exact h), setEmailIfEmpty_phone]

theorem applyGeminiEmail_email_ne {rec : ContactRecord} {g : GeminiResult} {src : String}
    (h : rec.email ≠ "") : (applyGeminiEmail rec g src).email = rec.email := by
  unfold applyGeminiEmail
  split_ifs with h1
  · exact absurd h1.2 h
  · rfl

theorem applyGeminiEmail_phone (rec : ContactRecord) (g : GeminiResult) (src : String) :
    (applyGeminiEmail rec g src).phone = rec.phone := by
  unfold applyGeminiEmail
  split_ifs <;> rfl

theorem applyGeminiPhone_phone_ne {rec : ContactRecord} {g : GeminiResult} {src : String}
    (h : rec.phone ≠ "") : (applyGeminiPhone rec g src).phone = rec.phone := by
  unfold applyGeminiPhone
  split_ifs with h1
  · exact absurd h1.2.1 h
  · rfl

theorem applyGeminiPhone_email (rec : ContactRecord) (g : GeminiResult) (src : String) :
    (applyGeminiPhone rec g src).email = rec.email := by
  unfold applyGeminiPhone
  split_ifs <;> rfl

theorem applyGemini_email_ne {rec : ContactRecord} {o : GeminiOutcome} {src : String}
    (h : rec.email ≠ "") : (applyGemini rec o src).email = rec.email := by
  unfold applyGemini
  split_ifs with h1
  · rfl
  · rw [applyGeminiPhone_email, applyGeminiEmail_email_ne h]

theorem applyGemini_phone_ne {rec : ContactRecord} {o : GeminiOutcome} {src : String}
    (h : rec.phone ≠ "") : (applyGemini rec o src).phone = rec.phone := by
  unfold applyGemini
  split_ifs with h1
  · rfl
  · rw [applyGeminiPhone_phone_ne (by rw [applyGeminiEmail_phone]; exact h),
      applyGeminiEmail_phone]

theorem apply_write_email_ne (rec : ContactRecord) (ev : WriteEvent) (h : rec.email ≠ "") :
    (apply_write rec ev).email = rec.email := by
  cases ev with
  | section_extract emails phones src sec =>
    show (setPhoneIfEmpty (setEmailIfEmpty rec emails _) phones _).email = rec.email
    rw [setPhoneIfEmpty_email, setEmailIfEmpty_email_ne h]
  | schema_extract oe op src =>
    show (applySchemaPhone (applySchemaEmail rec oe src) op src).email = rec.email
    rw [applySchemaPhone_email, applySchemaEmail_email_ne h]
  | html_element r src => exact applyHtmlContacts_email_ne h
  | gemini_step o src => exact applyGemini_email_ne h
  | strategy_lists emails phones src =>
    show (setPhoneIfEmpty (setEmailIfEmpty rec emails _) phones _).email = rec.email
    rw [setPhoneIfEmpty_email, setEmailIfEmpty_email_ne h]

theorem apply_write_phone_ne (rec : ContactRecord) (ev : WriteEvent) (h : rec.phone ≠ "") :
    (apply_write rec ev).phone = rec.phone := by
  cases ev with
  | section_extract emails phones src sec =>
    show (setPhoneIfEmpty (setEmailIfEmpty rec emails _) phones _).phone = rec.phone
    rw [setPhoneIfEmpty_phone_ne (by rw [setEmailIfEmpty_phone]; exact h), setEmailIfEmpty_phone]
  | schema_extract oe op src =>
    show (applySchemaPhone (applySchemaEmail rec oe src) op src).phone = rec.phone
    rw [applySchemaPhone_phone_ne (by rw [applySchemaEmail_phone]; exact h), applySchemaEmail_phone]
  | html_element r src => exact applyHtmlContacts_phone_ne h
  | gemini_step o src => exact applyGemini_phone_ne h
  | strategy_lists emails phones src =>
    show (setPhoneIfEmpty (setEmailIfEmpty rec emails _) phones _).phone = rec.phone
    rw [setPhoneIfEmpty_phone_ne (by rw [setEmailIfEmpty_phone]; exact h), setEmailIfEmpty_phone]

theorem foldl_write_email_ne (evs : List WriteEvent) (rec : ContactRecord)
    (h : rec.email ≠ "") : (evs.foldl apply_write rec).email = rec.email := by
  induction evs generalizing rec with
  | nil => rfl
  | cons ev t ih =>
    show (t.foldl apply_write (apply_write rec ev)).email = rec.email
    rw [ih (apply_write rec ev) (by rw [apply_write_email_ne rec ev h]; exact h),
      apply_write_email_ne rec ev h]

theorem foldl_write_phone_ne (evs : List WriteEvent) (rec : ContactRecord)
    (h : rec.phone ≠ "") : (evs.foldl apply_write rec).phone = rec.phone := by
  induction evs generalizing rec with
  | nil => rfl
  | cons ev t ih =>
    show (t.foldl apply_write (apply_write rec ev)).phone = rec.phone
    rw [ih (apply_write rec ev) (by rw [apply_write_phone_ne rec ev h]; exact h),
      apply_write_phone_ne rec ev h]

/-- C1.  First-valid-wins: once a record's email (resp. phone) is
non-empty, no later write event — section extractor, schema extractor,
HTML-element step, Gemini fallback, or strategy callback — changes it;
and recording a non-empty value into an empty field followed by any
sequence of further events leaves the field equal to that first value. -/
theorem first_valid_wins (evs : List WriteEvent) (rec : ContactRecord) :
    (rec.email ≠ "" → (evs.foldl apply_write rec).email = rec.email) ∧
    (rec.phone ≠ "" → (evs.foldl apply_write rec).phone = rec.phone) ∧
    (∀ v ps s t, rec.email = "" → v ≠ "" →
      (evs.foldl apply_write (apply_write rec (.section_extract [v] ps s t))).email = v) ∧
    (∀ w es s t, rec.phone = "" → w ≠ "" →
      (evs.foldl apply_write (apply_write rec (.section_extract es [w] s t))).phone = w) := by
  refine ⟨foldl_write_email_ne evs rec, foldl_write_phone_ne evs rec, ?_, ?_⟩
  · intro v ps s t he hv
    have hset : (apply_write rec (.section_extract [v] ps s t)).email = v := by
      show (setPhoneIfEmpty (setEmailIfEmpty rec [v] _) ps _).email = v
      rw [setPhoneIfEmpty_email, setEmailIfEmpty_sets he]
    rw [foldl_write_email_ne evs _ (by rw [hset]; exact hv), hset]
  · intro w es s t hp hw
    have hset : (apply_write rec (.section_extract es [w] s t)).phone = w := by
      show (setPhoneIfEmpty (setEmailIfEmpty rec es _) [w] _).phone = w
      rw [setPhoneIfEmpty_sets (by rw [setEmailIfEmpty_phone]; exact hp)]
    rw [foldl_write_phone_ne evs _ (by rw [hset]; exact hw), hset]

/-- C1 (witness).  Recording `a@x.com` into an empty record and then
offering `b@x.com` leaves the email equal to `a@x.com`. -/
theorem first_valid_wins_witness :
    ([WriteEvent.section_extract ["b@x.com"] [] "s2" "footer"].foldl apply_write
      (apply_write emptyRecord (.section_extract ["a@x.com"] [] "s1" "footer"))).email =
      "a@x.com" :=
  (first_valid_wins [WriteEvent.section_extract ["b@x.com"] [] "s2" "footer"]
    emptyRecord).2.2.1 "a@x.com" [] "s1" "footer" rfl (by decide)

theorem mem_extract_emails_ok {t e : String} (h : e ∈ extract_emails_from_content t) :
    emailFilterOk e.data = true := by
  obtain ⟨el, hel, rfl⟩ := List.mem_map.mp h
  cases hd : t.data with
  | nil =>
    rw [hd] at hel
    exact absurd hel (by simp [extractEmailsL])
  | cons a l =>
    rw [hd] at hel
    exact (List.mem_filter.mp hel).2

theorem emailFilterOk_bounds {el : List Char} (h : emailFilterOk el = true) :
    (6 ≤ el.length ∧ el.length ≤ 100) ∧
    (∃ tld ∈ allowedTlds, pyEndsWith (pyLower el) tld = true) ∧
    (∀ b ∈ emailBlocklist, pyContains (pyLower el) b = false) := by
  unfold emailFilterOk at h
  split_ifs at h with h1 h2 h3
  refine ⟨by omega, ?_, ?_⟩
  · exact List.any_eq_true.mp (by simpa using h2)
  · intro b hb
    rw [List.any_eq_true] at h3
    push_neg at h3
    exact Bool.eq_false_iff.mpr (h3 b hb)

theorem htmlFinalOk_of_filterOk {e : String} (h : emailFilterOk e.data = true) :
    htmlEmailFinalOk e = true := by
  obtain ⟨⟨h6, h100⟩, htld, -⟩ := emailFilterOk_bounds h
  unfold htmlEmailFinalOk
  rw [if_pos ⟨h6, h100⟩]
  exact List.any_eq_true.mpr htld

theorem mem_foldl_addUnique {l : List String} {acc : List String} {x : String}
    (h : x ∈ l.foldl addUnique acc) : x ∈ acc ∨ x ∈ l := by
  induction l generalizing acc with
  | nil => exact Or.inl h
  | cons y t ih =>
    rw [List.foldl_cons] at h
    rcases ih h with hx | hx
    · by_cases hy : y ∈ acc
      · rw [addUnique, if_pos hy] at hx
        exact Or.inl hx
      · rw [addUnique, if_neg hy] at hx
        rcases List.mem_append.mp hx with hx | hx
        · exact Or.inl hx
        · simp at hx
          subst hx
          exact Or.inr (by simp)
    · exact Or.inr (List.mem_cons_of_mem y hx)

theorem mem_visibleTextEmails {r : HtmlResponse} {x : String}
    (h : x ∈ visibleTextEmails r) : ∃ t, x ∈ extract_emails_from_content t := by
  unfold visibleTextEmails at h
  suffices haux : ∀ (texts : List String) (acc : List String),
      x ∈ texts.foldl (fun acc text => (extract_emails_from_content text).foldl addUnique acc) acc →
      x ∈ acc ∨ ∃ t, x ∈ extract_emails_from_content t by
    rcases haux r.visible_texts [] h with hx | hx
    · exact absurd hx (by simp)
    · exact hx
  intro texts
  induction texts with
  | nil => exact fun acc h => Or.inl h
  | cons y t ih =>
    intro acc h
    rcases ih _ h with hx | hx
    · rcases mem_foldl_addUnique hx with hx | hx
      · exact Or.inl hx
      · exact Or.inr ⟨y, hx⟩
    · exact Or.inr hx

theorem foldl_append_only {α : Type} (f : List String → α → List String)
    (hf : ∀ acc a, ∃ ext, f acc a = acc ++ ext) (l : List α) (acc : List String) :
    ∃ ext, l.foldl f acc = acc ++ ext := by
  induction l generalizing acc with
  | nil => exact ⟨[], by simp⟩
  | cons x t ih =>
    obtain ⟨e1, he1⟩ := hf acc x
    obtain ⟨e2, he2⟩ := ih (f acc x)
    exact ⟨e1 ++ e2, by rw [List.foldl_cons, he2, he1, List.append_assoc]⟩

theorem addUnique_append (acc : List String) (x : String) :
    ∃ ext, addUnique acc x = acc ++ ext := by
  by_cases hx : x ∈ acc
  · exact ⟨[], by simp [addUnique, hx]⟩
  · exact ⟨[x], by simp [addUnique, hx]⟩

theorem addMailtoEmails_append (r : HtmlResponse) (acc : List String) :
    ∃ ext, addMailtoEmails r acc = acc ++ ext := by
  refine foldl_append_only _ ?_ r.mailto_hrefs acc
  intro acc link
  by_cases h1 : mailtoShapeOk (mailtoEmailOf link) = true
  · by_cases h2 : reMatches emailRx (mailtoEmailOf link).data = true
    · simpa [h1, h2] using addUnique_append acc (mailtoEmailOf link)
    · exact ⟨[], by simp [h1, h2]⟩
  · exact ⟨[], by simp [h1]⟩

theorem addMetaEmails_append (r : HtmlResponse) (acc : List String) :
    ∃ ext, addMetaEmails r acc = acc ++ ext := by
  refine foldl_append_only _ ?_ r.meta_email_contents acc
  intro acc email
  by_cases h1 : (pyContains email.data ['@'] && reMatches emailRx email.data) = true
  · simpa [h1] using foldl_append_only addUnique addUnique_append
      (extract_emails_from_content email) acc
  · exact ⟨[], by simp [h1]⟩

/-- C7 (counterexample).  A page carrying the plain-text candidate
`sales@acmetools.com` and the different `mailto:` candidate
`info@acmetools.com` yields the candidate list with the plain-text match
first; the recorded email is the plain-text one, not the mailto one. -/
theorem mailto_rank_counterexample :
    (extract_contacts_from_html mailtoTestPage).emails =
      ["sales@acmetools.com", "info@acmetools.com"] ∧
    mailtoEmailOf "mailto:info@acmetools.com" = "info@acmetools.com" ∧
    (applyHtmlContacts mailtoTestPage "website" emptyRecord).email = "sales@acmetools.com" :=
  ⟨rfl, rfl, rfl⟩

/-- C7 (amended).  Visible-text emails come first, `mailto:` and meta
candidates are only appended after them: whenever the visible-text pass
finds a valid email, that email heads the final candidate list and is the
value recorded into an email-less record, regardless of any `mailto:`
candidates. -/
theorem visible_before_mailto (r : HtmlResponse) (rec : ContactRecord) (src : String)
    (v : String) (vs : List String) (he : rec.email = "")
    (hv : visibleTextEmails r = v :: vs) :
    (extract_contacts_from_html r).emails.head? = some v ∧
    (applyHtmlContacts r src rec).email = v := by
  have hok : htmlEmailFinalOk v = true := by
    obtain ⟨t, ht⟩ := mem_visibleTextEmails (x := v) (by rw [hv]; exact List.mem_cons_self v vs)
    exact htmlFinalOk_of_filterOk (mem_extract_emails_ok ht)
  obtain ⟨e1, he1⟩ := addMailtoEmails_append r (visibleTextEmails r)
  obtain ⟨e2, he2⟩ := addMetaEmails_append r (addMailtoEmails r (visibleTextEmails r))
  have hemails : (extract_contacts_from_html r).emails =
      v :: (vs ++ e1 ++ e2).filter htmlEmailFinalOk := by
    show (addMetaEmails r (addMailtoEmails r (visibleTextEmails r))).filter htmlEmailFinalOk = _
    rw [he2, he1, hv]
    rw [List.cons_append, List.cons_append, List.append_assoc]
    exact List.filter_cons_of_pos hok
  refine ⟨by rw [hemails]; rfl, ?_⟩
  show (setPhoneIfEmpty (setEmailIfEmpty rec (extract_contacts_from_html r).emails
    (src ++ " (html element)")) (extract_contacts_from_html r).phones
    (src ++ " (html element)")).email = v
  rw [setPhoneIfEmpty_email, hemails, setEmailIfEmpty_sets he]

/-- C7 (witness). -/
theorem visible_before_mailto_witness :
    (extract_contacts_from_html mailtoTestPage).emails.head? = some "sales@acmetools.com" ∧
    (applyHtmlContacts mailtoTestPage "website" emptyRecord).email = "sales@acmetools.com" :=
  visible_before_mailto mailtoTestPage emptyRecord "website" "sales@acmetools.com" [] rfl (by rfl)

/-- C4.  Every string returned by the email extractor has length 6-100,
ends with an allow-listed TLD, and contains no block-listed placeholder
substring; inputs consisting only of block-listed addresses yield the
empty list. -/
theorem extract_emails_filter_spec :
    (∀ (content e : String), e ∈ extract_emails_from_content content →
      (6 ≤ e.length ∧ e.length ≤ 100) ∧
      (∃ tld ∈ allowedTlds, pyEndsWith (pyLower e.data) tld = true) ∧
      (∀ b ∈ emailBlocklist, pyContains (pyLower e.data) b = false)) ∧
    extract_emails_from_content "test@test.com" = [] ∧
    extract_emails_from_content "info@example.com" = [] := by
  refine ⟨?_, by rfl, by rfl⟩
  intro content e he
  exact emailFilterOk_bounds (mem_extract_emails_ok he)

/-- C4 (witness). -/
theorem extract_emails_filter_spec_witness :
    "sales@acmetools.com" ∈ extract_emails_from_content "mail sales@acmetools.com now" ∧
    ((6 ≤ ("sales@acmetools.com" : String).length ∧
      ("sales@acmetools.com" : String).length ≤ 100) ∧
     (∃ tld ∈ allowedTlds,
       pyEndsWith (pyLower ("sales@acmetools.com" : String).data) tld = true) ∧
     (∀ b ∈ emailBlocklist,
       pyContains (pyLower ("sales@acmetools.com" : String).data) b = false)) :=
  ⟨by decide, extract_emails_filter_spec.1 "mail sales@acmetools.com now" _ (by decide)⟩

/-- C5.  The AI fallback returns both fields empty on any call failure and
never returns a non-empty value that fails the deterministic validators;
the model answer `{"email": "info@example.com", "phone": "123"}` is
rejected entirely. -/
theorem verify_contact_info_spec :
    verify_contact_info .fail = { email := "", phone := "" } ∧
    (∀ o : GeminiOutcome, (verify_contact_info o).phone ≠ "" →
      validate_phone_number (verify_contact_info o).phone = true) ∧
    (∀ o : GeminiOutcome, (verify_contact_info o).email ≠ "" →
      extract_emails_from_content (verify_contact_info o).email ≠ []) ∧
    verify_contact_info (.json "info@example.com" "123") = { email := "", phone := "" } := by
  have hphone : ∀ (p : String),
      (if p ≠ "" ∧ validate_phone_number p = false then "" else p) ≠ "" →
      validate_phone_number (if p ≠ "" ∧ validate_phone_number p = false then "" else p) = true := by
    intro p h
    split_ifs at h ⊢ with h1
    · exact absurd rfl h
    · cases hv : validate_phone_number p with
      | false => exact absurd ⟨h, hv⟩ h1
      | true => rfl
  have hemail : ∀ (e : String),
      (if e ≠ "" ∧ extract_emails_from_content e = [] then "" else e) ≠ "" →
      extract_emails_from_content
        (if e ≠ "" ∧ extract_emails_from_content e = [] then "" else e) ≠ [] := by
    intro e h
    split_ifs at h ⊢ with h1
    · exact absurd rfl h
    · intro hx
      exact h1 ⟨h, hx⟩
  refine ⟨rfl, ?_, ?_, by rfl⟩
  · intro o
    cases o with
    | fail => exact fun h => absurd rfl h
    | json e p => exact hphone p
    | raw e p => exact hphone p
  · intro o
    cases o with
    | fail => exact fun h => absurd rfl h
    | json e p => exact hemail e
    | raw e p => exact hemail e

/-- C5 (witness).  A valid answer is kept and still passes the
validators. -/
theorem verify_contact_info_spec_witness :
    (verify_contact_info (.json "sales@acmetools.com" "+919876501234")).phone ≠ "" ∧
    validate_phone_number
      (verify_contact_info (.json "sales@acmetools.com" "+919876501234")).phone = true ∧
    extract_emails_from_content
      (verify_contact_info (.json "sales@acmetools.com" "+919876501234")).email ≠ [] :=
  ⟨by decide,
    verify_contact_info_spec.2.1 (.json "sales@acmetools.com" "+919876501234") (by decide),
    verify_contact_info_spec.2.2.1 (.json "sales@acmetools.com" "+919876501234") (by decide)⟩

theorem save_result_none {s : SaveState} (h : s.result = none) : save_result s = s := by
  unfold save_result
  rw [h]

theorem save_result_pos {s : SaveState} {r : ContactRecord} (h : s.result = some r)
    (hc : (r.email ≠ "" ∨ r.phone ≠ "") ∧ s.saved = false) :
    save_result s =
      { s with
        output := s.output ++ [[r.name, r.website, r.email, r.phone, r.source]],
        saved := true } := by
  unfold save_result
  rw [h]
  exact if_pos hc

theorem save_result_neg {s : SaveState} {r : ContactRecord} (h : s.result = some r)
    (hc : ¬((r.email ≠ "" ∨ r.phone ≠ "") ∧ s.saved = false)) : save_result s = s := by
  unfold save_result
  rw [h]
  exact if_neg hc

/-- C6.  `save_result` appends a row only when the record exists, has a
non-empty field and is not yet saved, marking it saved; it is a no-op on a
saved record, idempotent, and never emits more than one row per call. -/
theorem save_result_spec (s : SaveState) :
    (s.saved = true → save_result s = s) ∧
    save_result (save_result s) = save_result s ∧
    (save_result s).output.length ≤ s.output.length + 1 ∧
    ((save_result s).output ≠ s.output →
      ∃ r, s.result = some r ∧ (r.email ≠ "" ∨ r.phone ≠ "") ∧ s.saved = false ∧
        (save_result s).output =
          s.output ++ [[r.name, r.website, r.email, r.phone, r.source]] ∧
        (save_result s).saved = true) := by
  rcases hres : s.result with _ | r
  · have hid := save_result_none hres
    exact ⟨fun _ => hid, by rw [hid, hid], by rw [hid]; exact Nat.le_succ _,
      fun hne => absurd (by rw [hid]) hne⟩
  · by_cases hc : (r.email ≠ "" ∨ r.phone ≠ "") ∧ s.saved = false
    · have hsave := save_result_pos hres hc
      have hsaved2 : (save_result s).saved = true := by rw [hsave]
      refine ⟨?_, ?_, ?_, ?_⟩
      · intro hs
        rw [hs] at hc
        exact absurd hc.2 (by decide)
      · have hres2 : (save_result s).result = some r := by rw [hsave]; exact hres
        refine save_result_neg hres2 ?_
        rintro ⟨-, hsaved⟩
        rw [hsaved2] at hsaved
        exact Bool.noConfusion hsaved
      · rw [hsave]
        simp
      · intro hne
        exact ⟨r, rfl, hc.1, hc.2, by rw [hsave], hsaved2⟩
    · have hid := save_result_neg hres hc
      exact ⟨fun _ => hid, by rw [hid, hid], by rw [hid]; exact Nat.le_succ _,
      fun hne => absurd (by rw [hid]) hne⟩

/-- C6 (witness).  A saved record is left untouched: calling `save_result`
twice on a state with one non-empty field produces exactly one row. -/
theorem save_result_spec_witness :
    save_result { result := some emptyRecord, saved := true, output := [["r1"]] } =
      { result := some emptyRecord, saved := true, output := [["r1"]] } :=
  (save_result_spec _).1 rfl

/-- C8 (counterexample).  A page whose URL and title contain neither
keyword and whose body contains `about` and `email` but not `contact` is
not classified as a contact page by the code, although the claim says it
is: the body-text branch of the code tests only `contact`. -/
theorem contact_page_about_counterexample :
    is_likely_contact_page "https://acme-tools.example" "welcome"
      "all about the team, email us" = false ∧
    ClaimLikelyContactPage "https://acme-tools.example" "welcome"
      "all about the team, email us" := by
  constructor
  · rfl
  · right; right; right; right
    exact ⟨Or.inr (by decide), Or.inl (by decide)⟩

/-- C8 (amended).  The classifier returns true exactly when the URL or
title contains `contact` or `about`, or the body text contains `contact`
(not `about`) together with an `email`/`phone`/`call` indicator. -/
theorem is_likely_contact_page_amended (url title body : String) :
    is_likely_contact_page url title body = true ↔
      AmendedLikelyContactPage url title body := by
  unfold is_likely_contact_page AmendedLikelyContactPage
  simp only [Bool.or_eq_true, Bool.and_eq_true]
  tauto

/-- C9.  `similarity_score` is the Jaccard index of the lowercased
whitespace-tokenized word sets, is 0 when either word set is empty, is
symmetric, and lies in `[0, 1]`. -/
theorem similarity_score_spec (a b : String) :
    similarity_score a b =
      ((wordSet a ∩ wordSet b).card : ℚ) / ((wordSet a ∪ wordSet b).card : ℚ) ∧
    ((wordSet a = ∅ ∨ wordSet b = ∅) → similarity_score a b = 0) ∧
    similarity_score a b = similarity_score b a ∧
    0 ≤ similarity_score a b ∧ similarity_score a b ≤ 1 := by
  have hjac : similarity_score a b =
      ((wordSet a ∩ wordSet b).card : ℚ) / ((wordSet a ∪ wordSet b).card : ℚ) := by
    unfold similarity_score
    split_ifs with h
    · rcases h with h | h
      · rw [Finset.card_eq_zero] at h
        rw [h]
        simp
      · rw [Finset.card_eq_zero] at h
        rw [h]
        simp
    · rfl
  refine ⟨hjac, ?_, ?_, ?_, ?_⟩
  · intro h
    unfold similarity_score
    rw [if_pos]
    rcases h with h | h
    · exact Or.inl (by rw [h]; rfl)
    · exact Or.inr (by rw [h]; rfl)
  · by_cases h : (wordSet a).card = 0 ∨ (wordSet b).card = 0
    · unfold similarity_score
      rw [if_pos h, if_pos h.symm]
    · unfold similarity_score
      rw [if_neg h, if_neg (fun hc => h hc.symm), Finset.inter_comm, Finset.union_comm]
  · unfold similarity_score
    split_ifs with h
    · exact le_refl 0
    · exact div_nonneg (Nat.cast_nonneg _) (Nat.cast_nonneg _)
  · unfold similarity_score
    split_ifs with h
    · exact zero_le_one
    · push_neg at h
      have hpos : (0 : ℚ) < ((wordSet a ∪ wordSet b).card : ℚ) := by
        have h1 : 0 < (wordSet a).card := Nat.pos_of_ne_zero h.1
        have h2 : (wordSet a).card ≤ (wordSet a ∪ wordSet b).card :=
          Finset.card_le_card Finset.subset_union_left
        exact_mod_cast Nat.lt_of_lt_of_le h1 h2
      rw [div_le_one hpos]
      exact_mod_cast Finset.card_le_card (Finset.inter_subset_union)

/-- C9 (witness).  Against an empty name the score is 0. -/
theorem similarity_score_spec_witness : similarity_score "acme tools" "" = 0 :=
  (similarity_score_spec "acme tools" "").2.1 (Or.inr (by decide))

end CompanyScraper
